import Mathlib

/-
Verification of the Tyler tile-based software rasterizer core
(src/Tyler/PipelineThread.cpp and src/Tyler/RenderEngine.cpp) against its
natural-language specification. Floating-point scalars are embedded as
rationals; 32-bit machine integers as naturals. SIMD four-lane operations
are modelled lane-wise (`Fin 4 → _`), which is the scalar semantics the
spec declares bit-identical to the vectorized code.
-/

namespace Tyler

/-- A clip-space or homogeneous-device-space position (glm::vec4), floats as ℚ. -/
structure Vec4 where
  x : ℚ
  y : ℚ
  z : ℚ
  w : ℚ
deriving DecidableEq

/-- A coefficient or delta triple (glm::vec3), floats as ℚ. -/
structure Vec3 where
  x : ℚ
  y : ℚ
  z : ℚ
deriving DecidableEq

/-! ## Vertex cache (PipelineThread.cpp lines 133-272) -/

/-- Per-worker vertex-cache state: `m_CachedVertexIndices` paired with
`m_VertexCacheEntries` in insertion order. The cached payload (clip-space
position together with the post-VS attribute record) is abstracted as `α`;
the code always copies both fields of an entry together. -/
structure VertexCacheState (α : Type) where
  entries : List (ℕ × α)

/-- `PipelineThread::PerformVertexCacheLookup` (lines 257-272): linear search
from entry 0, returning the payload of the first entry whose cached vertex
index matches. -/
def performVertexCacheLookup {α : Type} (c : VertexCacheState α) (vertexIdx : ℕ) : Option α :=
  (c.entries.find? (fun e => e.1 = vertexIdx)).map Prod.snd

/-- `PipelineThread::CacheVertexData` (lines 243-255): append the new entry
when the cache has fewer than `g_scVertexShaderCacheSize` entries, silently
drop it otherwise. The capacity constant lives in a header outside src/
(§4.B of the spec gives a small default such as 16), so it is a parameter. -/
def cacheVertexData {α : Type} (cap : ℕ) (c : VertexCacheState α) (vertexIdx : ℕ) (entry : α) :
    VertexCacheState α :=
  if c.entries.length < cap then ⟨c.entries ++ [(vertexIdx, entry)]⟩ else c

/-- One vertex fetch of the VS-cache-enabled path of
`PipelineThread::ExecuteVertexShader` (lines 172-237): look the vertex up;
on a hit return the cached payload, on a miss invoke the vertex shader and
insert the result under `insertIdx` — the index the code passes to
`CacheVertexData`, which is the vertex's own index for vertices 0 and 1 but
`vertexIdx0` for vertex 2 (line 235). -/
def fetchVertex {α : Type} (vs : ℕ → α) (cap : ℕ) (c : VertexCacheState α)
    (vertexIdx insertIdx : ℕ) : VertexCacheState α × α :=
  match performVertexCacheLookup c vertexIdx with
  | some cached => (c, cached)
  | none => (cacheVertexData cap c insertIdx (vs vertexIdx), vs vertexIdx)

/-- The three cached vertex fetches of `PipelineThread::ExecuteVertexShader`
under VS-cache-enabled (lines 172-237), for one triangle with vertex indices
`(vertexIdx0, vertexIdx1, vertexIdx2)`. Vertex 2's miss path caches under
`vertexIdx0` exactly as source line 235 does. -/
def executeVertexShaderCached {α : Type} (vs : ℕ → α) (cap : ℕ) (c0 : VertexCacheState α)
    (vertexIdx0 vertexIdx1 vertexIdx2 : ℕ) : VertexCacheState α × α × α × α :=
  let r0 := fetchVertex vs cap c0 vertexIdx0 vertexIdx0
  let r1 := fetchVertex vs cap r0.1 vertexIdx1 vertexIdx1
  let r2 := fetchVertex vs cap r1.1 vertexIdx2 vertexIdx0
  (r2.1, r0.2, r1.2, r2.2)

/-! ## Attribute-delta setup and interpolation (PipelineThread.cpp lines 1305-1352, 1431-1548) -/

/-- Vec4 attribute rows of `PipelineThread::CalculateInterpolationCoefficients`
(lines 1315-1326): for component `c` of an active vec4 attribute, the delta
triple `(c0 - c2, c1 - c2, c2)` stored at element `drawIdx*4 + c`. -/
def attribute4Deltas (a0 a1 a2 : Vec4) : ℕ → Vec3 :=
  fun c =>
    if c = 0 then ⟨a0.x - a2.x, a1.x - a2.x, a2.x⟩
    else if c = 1 then ⟨a0.y - a2.y, a1.y - a2.y, a2.y⟩
    else if c = 2 then ⟨a0.z - a2.z, a1.z - a2.z, a2.z⟩
    else ⟨a0.w - a2.w, a1.w - a2.w, a2.w⟩

/-- One interpolated component, the code pattern
`add(mul(d0, f0), add(mul(d1, f1), d2))` used throughout
`InterpolateVertexAttributes` and `InterpolateDepthValues`. -/
def interpolateComponent (d : Vec3) (f0 f1 : ℚ) : ℚ :=
  d.x * f0 + (d.y * f1 + d.z)

/-- The vec4 path of `PipelineThread::InterpolateVertexAttributes`
(lines 1438-1482): x, y and z use the delta triples at elements
`4*i + 0 .. 4*i + 2`; the w lanes (lines 1471-1476) reload the triple at
element `4*i + 2` — the z deltas — although the triple at `4*i + 3` was
fetched at line 1444 and is never used. -/
def interpolateVec4Attr (d : ℕ → Vec3) (f0 f1 : ℚ) : Vec4 :=
  ⟨interpolateComponent (d 0) f0 f1,
   interpolateComponent (d 1) f0 f1,
   interpolateComponent (d 2) f0 f1,
   interpolateComponent (d 2) f0 f1⟩

/-- The w component as claim C2 states it: interpolated from the w-component
deltas stored at element `4*i + 3`. -/
def claimVec4AttrW (d : ℕ → Vec3) (f0 f1 : ℚ) : ℚ :=
  interpolateComponent (d 3) f0 f1

/-! ## Color conversion (PipelineThread.cpp lines 1238-1277, RenderEngine.cpp lines 475-513) -/

/-- Round to the nearest integer, ties to even: the semantics of
`_mm_cvtps_epi32` under the default MXCSR rounding mode. -/
def roundNearestEven (q : ℚ) : ℤ :=
  if q - ⌊q⌋ < 1 / 2 then ⌊q⌋
  else if 1 / 2 < q - ⌊q⌋ then ⌊q⌋ + 1
  else if ⌊q⌋ % 2 = 0 then ⌊q⌋ else ⌊q⌋ + 1

/-- Truncation toward zero: the conversion claim C3 asserts
(`cast<uint>` semantics). -/
def truncTowardZero (q : ℚ) : ℤ :=
  if 0 ≤ q then ⌊q⌋ else -⌊-q⌋

/-- One lane of `_mm_packus_epi32`: signed 32-bit to unsigned 16-bit with
saturation. -/
def packusEpi32 (z : ℤ) : ℤ :=
  max 0 (min 65535 z)

/-- Reinterpretation of an unsigned 16-bit lane as the signed 16-bit input
of the subsequent `_mm_packus_epi16`. -/
def asInt16 (z : ℤ) : ℤ :=
  if z < 32768 then z else z - 65536

/-- One lane of `_mm_packus_epi16`: signed 16-bit to unsigned 8-bit with
saturation. -/
def packusEpi16 (z : ℤ) : ℤ :=
  max 0 (min 255 z)

/-- One color channel of `PipelineThread::UpdateColorBuffer` (lines 1246-1263)
and of the identical `RenderEngine::UpdateColorBuffer` (lines 479-496):
multiply the fragment-shader output by 255, convert with `_mm_cvtps_epi32`,
then pack down to 8 bits through the two unsigned-saturating packs. The ℚ
model is exact at every input used in the theorems below, where both `v` and
`v * 255` are dyadic rationals exactly representable in binary32. -/
def storedColorByte (v : ℚ) : ℤ :=
  packusEpi16 (asInt16 (packusEpi32 (roundNearestEven (v * 255))))

/-- The stored byte as claim C3 states it: truncation toward zero of
`v * 255`, with no clamping. -/
def claimColorByte (v : ℚ) : ℤ :=
  truncTowardZero (v * 255)

/-! ## Full-triangle clipping (PipelineThread.cpp lines 274-348) -/

/-- `PipelineThread::ExecuteFullTriangleClipping` (lines 274-348) with
`g_scFullTriangleClippingEnabled`: returns false (triangle rejected) exactly
when all three vertices are strictly outside one same clip plane, each vertex
tested against its own w. -/
def executeFullTriangleClipping (v0Clip v1Clip v2Clip : Vec4) : Bool :=
  let allOutsideLeftPlane :=
    decide (v0Clip.x < -v0Clip.w) && decide (v1Clip.x < -v1Clip.w) && decide (v2Clip.x < -v2Clip.w)
  let allOutsideRightPlane :=
    decide (v0Clip.x > v0Clip.w) && decide (v1Clip.x > v1Clip.w) && decide (v2Clip.x > v2Clip.w)
  let allOutsideBottomPlane :=
    decide (v0Clip.y < -v0Clip.w) && decide (v1Clip.y < -v1Clip.w) && decide (v2Clip.y < -v2Clip.w)
  let allOutsideTopPlane :=
    decide (v0Clip.y > v0Clip.w) && decide (v1Clip.y > v1Clip.w) && decide (v2Clip.y > v2Clip.w)
  let allOutsideNearPlane :=
    decide (v0Clip.z < 0) && decide (v1Clip.z < 0) && decide (v2Clip.z < 0)
  let allOutsideFarPlane :=
    decide (v0Clip.z > v0Clip.w) && decide (v1Clip.z > v1Clip.w) && decide (v2Clip.z > v2Clip.w)
  !(allOutsideLeftPlane || allOutsideRightPlane || allOutsideBottomPlane ||
      allOutsideTopPlane || allOutsideNearPlane || allOutsideFarPlane)

/-- The six clip planes as claim C6 words them: `x < -w`, `x > w`, `y < -w`,
`y > w`, `z < 0`, `z > w`, each vertex against its own w. -/
def strictlyOutsidePlane (p : Fin 6) (v : Vec4) : Prop :=
  if p.val = 0 then v.x < -v.w
  else if p.val = 1 then v.x > v.w
  else if p.val = 2 then v.y < -v.w
  else if p.val = 3 then v.y > v.w
  else if p.val = 4 then v.z < 0
  else v.z > v.w

/-! ## Triangle setup and cull (PipelineThread.cpp lines 350-414) -/

/-- The `TO_HOMOGEN` transform (line 355): clip space to device-space 2D
homogeneous coordinates. -/
def toHomogen (width height : ℚ) (clipPos : Vec4) : Vec4 :=
  ⟨width * (clipPos.x + clipPos.w) * (1 / 2),
   height * (clipPos.y + clipPos.w) * (1 / 2),
   clipPos.z, clipPos.w⟩

/-- Adjoint coefficients of the vertex matrix (lines 377-387), rows
`(a_k, b_k, c_k)` for the three edges, from the homogeneous vertices. -/
def adjointFromHomogen (h0 h1 h2 : Vec4) : Vec3 × Vec3 × Vec3 :=
  (⟨h2.y * h1.w - h1.y * h2.w, h1.x * h2.w - h2.x * h1.w, h2.x * h1.y - h1.x * h2.y⟩,
   ⟨h0.y * h2.w - h2.y * h0.w, h2.x * h0.w - h0.x * h2.w, h0.x * h2.y - h2.x * h0.y⟩,
   ⟨h1.y * h0.w - h0.y * h1.w, h0.x * h1.w - h1.x * h0.w, h1.x * h0.y - h0.x * h1.y⟩)

/-- What triangle setup writes to the setup buffers for a kept primitive:
the three edge-coefficient triples at `m_pEdgeCoefficients[3*i + k]` and the
Z-delta triple at `m_pInterpolatedZValues[i]`. -/
structure TriangleSetupOutput where
  edge0 : Vec3
  edge1 : Vec3
  edge2 : Vec3
  zDeltas : Vec3
deriving DecidableEq

/-- `PipelineThread::ExecuteTriangleSetupAndCull` (lines 350-414):
transform the clip-space vertices with `TO_HOMOGEN`, build the adjoint
coefficients, compute `detM = c0*w0 + c1*w1 + c2*w2` and keep the primitive
(writing edge coefficients and Z deltas) exactly when `detM > 0`. -/
def executeTriangleSetupAndCull (width height : ℚ) (v0Clip v1Clip v2Clip : Vec4) :
    Option TriangleSetupOutput :=
  let h0 := toHomogen width height v0Clip
  let h1 := toHomogen width height v1Clip
  let h2 := toHomogen width height v2Clip
  let adj := adjointFromHomogen h0 h1 h2
  let detM := adj.1.z * h0.w + adj.2.1.z * h1.w + adj.2.2.z * h2.w
  if detM > 0 then
    some ⟨adj.1, adj.2.1, adj.2.2,
          ⟨v0Clip.z - v2Clip.z, v1Clip.z - v2Clip.z, v2Clip.z⟩⟩
  else
    none

/-- The homogeneous pixel-space transform as claim C7 words it:
`x = W*(x+w)/2`, `y = H*(y+w)/2`, z and w unchanged. -/
def claimHomogen (width height : ℚ) (v : Vec4) : Vec4 :=
  ⟨width * (v.x + v.w) / 2, height * (v.y + v.w) / 2, v.z, v.w⟩

/-- The determinant as claim C7 words it: `det = c0*w0 + c1*w1 + c2*w2` from
the adjoint coefficients of the claim's homogeneous vertices. -/
def claimDet (width height : ℚ) (v0 v1 v2 : Vec4) : ℚ :=
  let h0 := claimHomogen width height v0
  let h1 := claimHomogen width height v1
  let h2 := claimHomogen width height v2
  let adj := adjointFromHomogen h0 h1 h2
  adj.1.z * h0.w + adj.2.1.z * h1.w + adj.2.2.z * h2.w

/-- The setup record claim C7 describes: the three edge-coefficient triples
and the Z-delta triple `(z0 - z2, z1 - z2, z2)`. -/
def claimSetupOutput (width height : ℚ) (v0 v1 v2 : Vec4) : TriangleSetupOutput :=
  let adj := adjointFromHomogen (claimHomogen width height v0)
    (claimHomogen width height v1) (claimHomogen width height v2)
  ⟨adj.1, adj.2.1, adj.2.2, ⟨v0.z - v2.z, v1.z - v2.z, v2.z⟩⟩

/-! ## Hierarchical coverage test (PipelineThread.cpp lines 494-608 tile level,
lines 691-762 block level; both instances share this structure with region
size `S` = tile size resp. `g_scPixelBlockSize`) -/

/-- The edge function `E(x, y) = a*x + b*y + c`. -/
def edgeEval (e : Vec3) (x y : ℚ) : ℚ :=
  e.x * x + e.y * y + e.z

/-- Trivial-reject corner selection from the signs of the edge normal
`(a, b)` (lines 494-496 and 691-693): corner indices are LL=0, LR=1, UL=2,
UR=3. -/
def trCorner (e : Vec3) : Fin 4 :=
  if 0 ≤ e.y then (if 0 ≤ e.x then ⟨3, by omega⟩ else ⟨2, by omega⟩)
  else (if 0 ≤ e.x then ⟨1, by omega⟩ else ⟨0, by omega⟩)

/-- Trivial-accept corner: diagonally opposite the TR corner, `3 - TR`
(lines 499-501 and 696-702). -/
def taCorner (e : Vec3) : Fin 4 :=
  ⟨3 - (trCorner e).val, by omega⟩

/-- The corner-offset table `scTileTRCornerOffsets` / `scBlockTRCornerOffsets`
for a region of side `S`. -/
def trCornerOffset (S : ℚ) (i : Fin 4) : ℚ × ℚ :=
  if i.val = 0 then (0, 0)
  else if i.val = 1 then (S, 0)
  else if i.val = 2 then (0, S)
  else (S, S)

/-- The TA-corner step table `scTileTACornerOffsets` / `scBlockTACornerOffsets`,
indexed by the TA corner. -/
def taCornerOffset (S : ℚ) (i : Fin 4) : ℚ × ℚ :=
  if i.val = 0 then (-S, -S)
  else if i.val = 1 then (S, -S)
  else if i.val = 2 then (-S, S)
  else (S, S)

/-- The single up-front edge-function evaluation at the first region's TR
corner (lines 520-533 and 710-723); `(posX, posY)` is the first region's
origin. -/
def edgeFuncBase (e : Vec3) (S posX posY : ℚ) : ℚ :=
  e.x * (posX + (trCornerOffset S (trCorner e)).1) +
    e.y * (posY + (trCornerOffset S (trCorner e)).2) + e.z

/-- The incrementally stepped TR value for the region `(txx, tyy)` steps from
the first one (lines 548-550 and 738-740): base value plus
`a*(txx*S) + b*(tyy*S)`. -/
def edgeFuncTR (e : Vec3) (S posX posY : ℚ) (txx tyy : ℕ) : ℚ :=
  edgeFuncBase e S posX posY + e.x * ((txx : ℚ) * S) + e.y * ((tyy : ℚ) * S)

/-- The TA value obtained by stepping from the TR value with the precomputed
TA-corner offsets (lines 503-509/569-571 and 696-702/759-761). -/
def edgeFuncTA (e : Vec3) (S posX posY : ℚ) (txx tyy : ℕ) : ℚ :=
  edgeFuncTR e S posX posY txx tyy +
    e.x * (taCornerOffset S (taCorner e)).1 + e.y * (taCornerOffset S (taCorner e)).2

/-- Outcome of the hierarchical coverage test for one square region. -/
inductive CoverageResult where
  | trivialReject
  | trivialAccept
  | overlap
deriving DecidableEq

/-- The region classification of the binner (lines 553-605) and the
rasterizer (lines 743-762): trivial reject when any stepped TR value is
negative, else trivial accept when all stepped TA values are nonnegative,
else overlap. -/
def coverageTestRegion (e0 e1 e2 : Vec3) (S posX posY : ℚ) (txx tyy : ℕ) : CoverageResult :=
  if edgeFuncTR e0 S posX posY txx tyy < 0 ∨ edgeFuncTR e1 S posX posY txx tyy < 0 ∨
      edgeFuncTR e2 S posX posY txx tyy < 0 then
    .trivialReject
  else if 0 ≤ edgeFuncTA e0 S posX posY txx tyy ∧ 0 ≤ edgeFuncTA e1 S posX posY txx tyy ∧
      0 ≤ edgeFuncTA e2 S posX posY txx tyy then
    .trivialAccept
  else
    .overlap

/-- X coordinate of corner `c` of the region `(txx, tyy)` steps from the
first region whose origin is `(posX, posY)`. -/
def regionCornerX (S posX : ℚ) (txx : ℕ) (c : Fin 4) : ℚ :=
  posX + (txx : ℚ) * S + (trCornerOffset S c).1

/-- Y coordinate of corner `c` of the region `(txx, tyy)` steps from the
first region whose origin is `(posX, posY)`. -/
def regionCornerY (S posY : ℚ) (tyy : ℕ) (c : Fin 4) : ℚ :=
  posY + (tyy : ℚ) * S + (trCornerOffset S c).2

/-! ## Tile enqueue and binning (RenderEngine.cpp lines 402-440),
sequential event model.

The per-tile `m_IsTileQueued` test-and-set flag and the queue's fetch-add
insertion are atomic, so any concurrent execution of the draw iteration
linearizes to a sequence of trivial-accept and bin-push events; the model
runs such a sequence against the per-iteration reset state. -/

/-- Iteration-local binning state: the rasterizer queue contents in insertion
order, the per-tile queued flags, and the per-(tile, thread) bins. -/
structure BinningState where
  queue : List ℕ
  isTileQueued : ℕ → Bool
  bins : ℕ → ℕ → List ℕ

/-- State after `ApplyPreDrawIterationStateInvalidations` (RenderEngine.cpp
lines 273-320): flags cleared, bins cleared, queue reset. -/
def initialBinningState : BinningState :=
  ⟨[], fun _ => false, fun _ _ => []⟩

/-- `RenderEngine::EnqueueTileForRasterization` (lines 402-412): test-and-set
the tile's queued flag; only the winner inserts the tile index.
Modelled from the spec: `RasterizerQueue::InsertTileIndex` is declared in a
header outside src/; per §4.E an insert writes the tile index at the atomic
insertion cursor, i.e. appends it to the queue in insertion order. -/
def enqueueTileForRasterization (s : BinningState) (tileIdx : ℕ) : BinningState :=
  if s.isTileQueued tileIdx then s
  else
    { queue := s.queue ++ [tileIdx],
      isTileQueued := fun t => if t = tileIdx then true else s.isTileQueued t,
      bins := s.bins }

/-- `RenderEngine::BinPrimitiveForTile` (lines 414-440): on the first push
into `Bin[tileIdx][threadIdx]` this iteration, enqueue the tile; then append
the primitive index to the bin. -/
def binPrimitiveForTile (s : BinningState) (threadIdx tileIdx primIdx : ℕ) : BinningState :=
  let s1 := if (s.bins tileIdx threadIdx).isEmpty then enqueueTileForRasterization s tileIdx else s
  { queue := s1.queue,
    isTileQueued := s1.isTileQueued,
    bins := fun t w =>
      if t = tileIdx ∧ w = threadIdx then s1.bins t w ++ [primIdx] else s1.bins t w }

/-- One queue-relevant action of the binner loop (PipelineThread.cpp
lines 572-605): a trivial accept of a tile (which enqueues it, line 581), or
an overlap (which bins the primitive for the tile, line 601). -/
inductive BinnerEvent where
  | trivialAccept (tileIdx : ℕ)
  | binPrim (threadIdx tileIdx primIdx : ℕ)

/-- Apply one binner event to the iteration state. -/
def applyBinnerEvent (s : BinningState) : BinnerEvent → BinningState
  | .trivialAccept t => enqueueTileForRasterization s t
  | .binPrim w t p => binPrimitiveForTile s w t p

/-- Run a linearized draw iteration from the reset state. -/
def runBinnerEvents (es : List BinnerEvent) : BinningState :=
  es.foldl applyBinnerEvent initialBinningState

/-- The event concerns tile `t`: a worker trivially accepted `t` or pushed a
primitive index into some `Bin[t][w]`. -/
def eventTouchesTile (t : ℕ) : BinnerEvent → Prop
  | .trivialAccept t2 => t2 = t
  | .binPrim _ t2 _ => t2 = t

/-- The iteration invariant tying queue contents to the queued flags and the
bins: each tile occurs in the queue once if flagged and never otherwise, and
a nonempty bin implies the tile is flagged. -/
def binningInvariant (s : BinningState) : Prop :=
  (∀ t, s.queue.count t = if s.isTileQueued t then 1 else 0) ∧
    (∀ t w, s.bins t w ≠ [] → s.isTileQueued t = true)

/-! ## Draw partitioning and bin capacity (RenderEngine.cpp lines 155-165,
186-245, 414-440) -/

/-- The primitive-range size `RenderEngine::Draw` assigns to a worker
(lines 205-215): `iterationSize / N` for every worker, with the last worker
additionally absorbing `iterationSize % N`. -/
def sliceSize (iterationSize numThreads threadIdx : ℕ) : ℕ :=
  if threadIdx = numThreads - 1 then
    iterationSize / numThreads + iterationSize % numThreads
  else
    iterationSize / numThreads

/-- The per-bin capacity reserved once in `RenderEngine::SetRenderTargets`
(line 163): `m_MaxDrawIterationSize / m_NumPipelineThreads`. -/
def binReservedCapacity (maxDrawIterationSize numThreads : ℕ) : ℕ :=
  maxDrawIterationSize / numThreads

/-- A `std::vector<uint32_t>` bin with its reserved capacity; `reallocated`
records whether any `push_back` ever grew the backing storage — exactly the
condition the code's `capPreAppend == capPostAppend` assertion
(lines 431-439) rules out. -/
structure BinVector where
  elems : List ℕ
  capacity : ℕ
  reallocated : Bool

/-- `push_back` on the bin vector: reallocates (growing the capacity) exactly
when the size has reached the capacity. -/
def binVectorPush (v : BinVector) (primIdx : ℕ) : BinVector :=
  if v.elems.length < v.capacity then
    ⟨v.elems ++ [primIdx], v.capacity, v.reallocated⟩
  else
    ⟨v.elems ++ [primIdx], v.capacity * 2 + 1, true⟩

/-! ## Fragment-shading depth test and masked stores (PipelineThread.cpp
lines 1026-1121 block path, 1123-1220 quad path) -/

/-- The quad-mask bit of a lane: the BLOCK path (`quadMask = none`) writes
every depth-passing lane, the QUAD path (`quadMask = some m`) additionally
requires the lane's coverage bit (lines 1202-1212). -/
def quadMaskBit : Option (Fin 4 → Bool) → Fin 4 → Bool
  | none, _ => true
  | some m, i => m i

/-- Result of shading one four-lane sample group. -/
structure ShadeGroupResult (α : Type) where
  depthOut : Fin 4 → ℚ
  colorOut : Fin 4 → α
  fsInvoked : Bool

/-- One four-lane group of `FragmentShadeBlock` (lines 1090-1118) or the body
of `FragmentShadeQuad` (lines 1175-1219): interpolated depths are tested LEQ
against the stored depths; when every lane fails, the user fragment shader is
skipped and nothing is written; otherwise the shader output `fsOut` and the
interpolated depths are mask-stored into the lanes whose depth test (and, in
the quad path, coverage bit) passed. The per-lane color payload is abstracted
as `α`. -/
def fragmentShadeGroup {α : Type} (zInterp depthCur : Fin 4 → ℚ)
    (colorCur fsOut : Fin 4 → α) (quadMask : Option (Fin 4 → Bool)) : ShadeGroupResult α :=
  if ∀ i, ¬ zInterp i ≤ depthCur i then
    ⟨depthCur, colorCur, false⟩
  else
    let writeMask : Fin 4 → Bool := fun i =>
      decide (zInterp i ≤ depthCur i) && quadMaskBit quadMask i
    ⟨fun i => if writeMask i then zInterp i else depthCur i,
     fun i => if writeMask i then fsOut i else colorCur i,
     true⟩

/-! ## Attribute2Deltas allocation and the vec2 read range
(RenderEngine.cpp lines 20-25, PipelineThread.cpp lines 1522-1547) -/

/-- Element count of each `m_Attribute2Deltas[i]` allocation
(RenderEngine.cpp line 24): `MaxDrawIterationSize * 2`. -/
def attribute2DeltasAllocSize (maxDrawIterationSize : ℕ) : ℕ :=
  maxDrawIterationSize * 2

/-- The element indices the vec2 loop of `InterpolateVertexAttributes` reads
from `m_Attribute2Deltas[i]` for primitive `primIdx` (lines 1525-1527):
`primIdx*2 + 0`, `primIdx*2 + 1` and `primIdx*2 + 2`. -/
def vec2DeltaAccessIndices (primIdx : ℕ) : List ℕ :=
  [primIdx * 2 + 0, primIdx * 2 + 1, primIdx * 2 + 2]

/-! ## Theorems -/

/-- Claim C1 (refuted by the code): from an empty per-worker cache, the
VS-cache-enabled path for a triangle with vertex indices (0, 1, 2) leaves the
cache keyed [0, 1, 0] — vertex 2's post-VS record is inserted under vertex 0's
index (source line 235 passes `vertexIdx0`) — so a later lookup of vertex 2
misses, while the claim requires the inserted entry to be keyed by vertex 2's
own index. -/
theorem vertex2_cached_under_vertex0_index :
    ((executeVertexShaderCached (fun n => n + 100) 16 ⟨[]⟩ 0 1 2).1.entries.map Prod.fst
        = [0, 1, 0]) ∧
      performVertexCacheLookup (executeVertexShaderCached (fun n => n + 100) 16 ⟨[]⟩ 0 1 2).1 2
        = none := by
  constructor <;> rfl

/-- Claim C2 (refuted by the code): for a single active vec4 attribute with
vertex values A0 = (0,0,0,1), A1 = A2 = (0,0,0,0) and basis values f0 = 1,
f1 = 0, the code's vec4 interpolation produces w = 0 because its w lanes reuse
the z-component delta triple at element 4i+2 (lines 1471-1476), whereas
interpolating from the w-component deltas at element 4i+3, as the claim
requires, yields w = 1. -/
theorem vec4_w_component_uses_z_deltas :
    (interpolateVec4Attr (attribute4Deltas ⟨0, 0, 0, 1⟩ ⟨0, 0, 0, 0⟩ ⟨0, 0, 0, 0⟩) 1 0).w = 0 ∧
      claimVec4AttrW (attribute4Deltas ⟨0, 0, 0, 1⟩ ⟨0, 0, 0, 0⟩ ⟨0, 0, 0, 0⟩) 1 0 = 1 := by
  constructor <;>
    simp [interpolateVec4Attr, claimVec4AttrW, attribute4Deltas, interpolateComponent]

/-- Claim C3 counterexample: at channel value v = 1/2 (so v·255 = 127.5, both
exactly representable in binary32) the code stores 128 — `_mm_cvtps_epi32`
rounds to nearest even — while truncation toward zero, as the claim states,
would give 127. -/
theorem color_conversion_not_truncation :
    storedColorByte (1 / 2) = 128 ∧ claimColorByte (1 / 2) = 127 ∧
      storedColorByte (1 / 2) ≠ claimColorByte (1 / 2) := by
  have hf : ⌊(1 / 2 : ℚ) * 255⌋ = 127 := by norm_num [Int.floor_eq_iff]
  have hr : roundNearestEven ((1 / 2 : ℚ) * 255) = 128 := by
    simp only [roundNearestEven, hf]
    norm_num
  have h1 : storedColorByte (1 / 2) = 128 := by
    simp only [storedColorByte, hr, packusEpi32, asInt16, packusEpi16]
    norm_num
  have h2 : claimColorByte (1 / 2) = 127 := by
    simp only [claimColorByte, truncTowardZero, hf]
    norm_num
  exact ⟨h1, h2, by rw [h1, h2]; decide⟩

/-- Claim C5 (refuted by the code): with `MaxDrawIterationSize = 8` and
`NumPipelineThreads = 4` each bin is reserved to capacity 2, but a draw
iteration of 7 primitives hands the last worker (index 3) a slice of 4
primitives; if all four overlap one tile, the four pushes into that tile's
bin overflow the reservation and the vector reallocates mid-iteration. -/
theorem bin_reservation_overflow :
    sliceSize 7 4 3 = 4 ∧ binReservedCapacity 8 4 = 2 ∧
      ([3, 4, 5, 6].foldl binVectorPush ⟨[], binReservedCapacity 8 4, false⟩).reallocated
        = true := by
  refine ⟨by decide, by decide, by decide⟩

/-- Claim C10 (refuted by the code): with `MaxDrawIterationSize = 16` the
vec2 delta buffer holds 32 elements, yet for the last primitive
(primIdx = 15) the vec2 loop reads element 2·15 + 2 = 32 (line 1527), one
past the allocation, so not every access is in bounds. -/
theorem vec2_delta_access_out_of_bounds :
    ((vec2DeltaAccessIndices (16 - 1)).all fun j => decide (j < attribute2DeltasAllocSize 16))
      = false := by
  decide

/-- Claim C6: the clipping stage rejects a triangle iff all three clip-space
vertices are strictly outside one same plane among x < -w, x > w, y < -w,
y > w, z < 0, z > w, each vertex tested against its own w; any triangle not
rejected is passed downstream unchanged (the stage returns only the keep
decision and never alters the vertices). -/
theorem clipping_rejects_iff_all_outside_same_plane (v0 v1 v2 : Vec4) :
    executeFullTriangleClipping v0 v1 v2 = false ↔
      ∃ p : Fin 6, strictlyOutsidePlane p v0 ∧ strictlyOutsidePlane p v1 ∧
        strictlyOutsidePlane p v2 := by
  simp only [executeFullTriangleClipping, Bool.not_eq_false', Bool.or_eq_true,
    Bool.and_eq_true, decide_eq_true_eq]
  constructor
  · intro hcond
    rcases hcond with ((((h | h) | h) | h) | h) | h
    · exact ⟨0, h.1.1, h.1.2, h.2⟩
    · exact ⟨1, h.1.1, h.1.2, h.2⟩
    · exact ⟨2, h.1.1, h.1.2, h.2⟩
    · exact ⟨3, h.1.1, h.1.2, h.2⟩
    · exact ⟨4, h.1.1, h.1.2, h.2⟩
    · exact ⟨5, h.1.1, h.1.2, h.2⟩
  · rintro ⟨p, h0, h1, h2⟩
    fin_cases p
    · exact Or.inl (Or.inl (Or.inl (Or.inl (Or.inl ⟨⟨h0, h1⟩, h2⟩))))
    · exact Or.inl (Or.inl (Or.inl (Or.inl (Or.inr ⟨⟨h0, h1⟩, h2⟩))))
    · exact Or.inl (Or.inl (Or.inl (Or.inr ⟨⟨h0, h1⟩, h2⟩)))
    · exact Or.inl (Or.inl (Or.inr ⟨⟨h0, h1⟩, h2⟩))
    · exact Or.inl (Or.inr ⟨⟨h0, h1⟩, h2⟩)
    · exact Or.inr ⟨⟨h0, h1⟩, h2⟩

/-- Claim C7: triangle setup transforms each clip-space vertex by
`x = W*(x+w)/2`, `y = H*(y+w)/2`, computes `det = c0*w0 + c1*w1 + c2*w2` from
the adjoint coefficients, and keeps the primitive — writing the three
edge-coefficient triples and the Z-delta triple `(z0-z2, z1-z2, z2)` — iff
`det > 0`; when `det ≤ 0` nothing is written. -/
theorem triangle_setup_keeps_iff_det_pos (width height : ℚ) (v0 v1 v2 : Vec4) :
    executeTriangleSetupAndCull width height v0 v1 v2 =
      if claimDet width height v0 v1 v2 > 0 then
        some (claimSetupOutput width height v0 v1 v2)
      else none := by
  have hh : ∀ v : Vec4, toHomogen width height v = claimHomogen width height v := by
    intro v
    unfold toHomogen claimHomogen
    congr 1 <;> ring
  simp only [executeTriangleSetupAndCull, claimDet, claimSetupOutput, hh]

/-- Helper: an `ite` over the Bool combination of a decided proposition and a
mask bit agrees with the `ite` over the corresponding proposition. -/
theorem ite_decide_and_mask {β : Type} (a : Prop) [Decidable a] (b : Bool) (x y : β) :
    (if (decide a && b) = true then x else y) = if a ∧ b = true then x else y := by
  by_cases ha : a <;> by_cases hb : b = true <;> simp [ha, hb]

/-- Claim C9: in the BLOCK and QUAD fragment-shading paths, a lane's depth and
color are written exactly when its interpolated Z passes the LEQ test against
the stored depth (and, for QUAD masks, its coverage bit is set); failing lanes
keep their previous depth and color, and the user fragment shader is invoked
iff at least one of the four lanes passes the depth test. -/
theorem fragment_depth_test_gates_writes {α : Type} (zInterp depthCur : Fin 4 → ℚ)
    (colorCur fsOut : Fin 4 → α) (quadMask : Option (Fin 4 → Bool)) :
    ((fragmentShadeGroup zInterp depthCur colorCur fsOut quadMask).fsInvoked = true ↔
        ∃ i, zInterp i ≤ depthCur i) ∧
      ∀ i,
        (fragmentShadeGroup zInterp depthCur colorCur fsOut quadMask).depthOut i =
            (if zInterp i ≤ depthCur i ∧ quadMaskBit quadMask i = true then zInterp i
              else depthCur i) ∧
          (fragmentShadeGroup zInterp depthCur colorCur fsOut quadMask).colorOut i =
            (if zInterp i ≤ depthCur i ∧ quadMaskBit quadMask i = true then fsOut i
              else colorCur i) := by
  by_cases h : ∀ i, ¬ zInterp i ≤ depthCur i
  · simp only [fragmentShadeGroup, if_pos h]
    constructor
    · constructor
      · intro hfalse
        exact absurd hfalse (by simp)
      · rintro ⟨i, hi⟩
        exact absurd hi (h i)
    · intro i
      exact ⟨(if_neg fun hc => h i hc.1).symm, (if_neg fun hc => h i hc.1).symm⟩
  · have hex : ∃ i, zInterp i ≤ depthCur i := by
      push_neg at h
      exact h
    simp only [fragmentShadeGroup, if_neg h]
    refine ⟨⟨fun _ => hex, fun _ => by trivial⟩, fun i => ?_⟩
    exact ⟨ite_decide_and_mask _ _ _ _, ite_decide_and_mask _ _ _ _⟩

/-- Claim C8: for every square region inside a primitive's clamped bounding
box, the incrementally stepped edge-function values equal direct evaluation
of `E(x,y) = a*x + b*y + c` at the region's TR corner and at the diagonally
opposite TA corner chosen from the signs of `(a, b)`; and the region is
classified trivial-reject when some stepped TR value is negative, trivial
accept when no TR value is negative and every stepped TA value is
nonnegative, and overlap otherwise. -/
theorem hierarchical_coverage_test_correct (S posX posY : ℚ) (txx tyy : ℕ) :
    (∀ e : Vec3,
        edgeFuncTR e S posX posY txx tyy =
            edgeEval e (regionCornerX S posX txx (trCorner e))
              (regionCornerY S posY tyy (trCorner e)) ∧
          edgeFuncTA e S posX posY txx tyy =
            edgeEval e (regionCornerX S posX txx (taCorner e))
              (regionCornerY S posY tyy (taCorner e))) ∧
      ∀ e0 e1 e2 : Vec3,
        (coverageTestRegion e0 e1 e2 S posX posY txx tyy = .trivialReject ↔
            edgeFuncTR e0 S posX posY txx tyy < 0 ∨ edgeFuncTR e1 S posX posY txx tyy < 0 ∨
              edgeFuncTR e2 S posX posY txx tyy < 0) ∧
          (coverageTestRegion e0 e1 e2 S posX posY txx tyy = .trivialAccept ↔
            ¬ (edgeFuncTR e0 S posX posY txx tyy < 0 ∨ edgeFuncTR e1 S posX posY txx tyy < 0 ∨
                edgeFuncTR e2 S posX posY txx tyy < 0) ∧
              (0 ≤ edgeFuncTA e0 S posX posY txx tyy ∧ 0 ≤ edgeFuncTA e1 S posX posY txx tyy ∧
                0 ≤ edgeFuncTA e2 S posX posY txx tyy)) ∧
          (coverageTestRegion e0 e1 e2 S posX posY txx tyy = .overlap ↔
            ¬ (edgeFuncTR e0 S posX posY txx tyy < 0 ∨ edgeFuncTR e1 S posX posY txx tyy < 0 ∨
                edgeFuncTR e2 S posX posY txx tyy < 0) ∧
              ¬ (0 ≤ edgeFuncTA e0 S posX posY txx tyy ∧ 0 ≤ edgeFuncTA e1 S posX posY txx tyy ∧
                0 ≤ edgeFuncTA e2 S posX posY txx tyy)) := by
  constructor
  · intro e
    constructor
    · simp only [edgeFuncTR, edgeFuncBase, edgeEval, regionCornerX, regionCornerY]
      ring
    · by_cases h1 : (0 : ℚ) ≤ e.y <;> by_cases h2 : (0 : ℚ) ≤ e.x <;>
        simp only [edgeFuncTA, edgeFuncTR, edgeFuncBase, edgeEval, regionCornerX,
          regionCornerY, trCorner, taCorner, trCornerOffset, taCornerOffset, h1, h2,
          if_true, if_false, ite_true, ite_false] <;>
        norm_num <;> ring
  · intro e0 e1 e2
    unfold coverageTestRegion
    split_ifs with hTR hTA
    · exact ⟨iff_of_true rfl hTR,
        iff_of_false (by decide) fun h => h.1 hTR,
        iff_of_false (by decide) fun h => h.1 hTR⟩
    · exact ⟨iff_of_false (by decide) hTR,
        iff_of_true rfl ⟨hTR, hTA⟩,
        iff_of_false (by decide) fun h => h.2 hTA⟩
    · exact ⟨iff_of_false (by decide) hTR,
        iff_of_false (by decide) fun h => hTA h.2,
        iff_of_true rfl ⟨hTR, hTA⟩⟩

/-- Helper: the queued flag after `EnqueueTileForRasterization`. -/
theorem enqueue_isTileQueued (s : BinningState) (tile t : ℕ) :
    (enqueueTileForRasterization s tile).isTileQueued t = true ↔
      s.isTileQueued t = true ∨ t = tile := by
  unfold enqueueTileForRasterization
  by_cases hq : s.isTileQueued tile = true
  · rw [if_pos hq]
    constructor
    · exact Or.inl
    · rintro (h | rfl)
      · exact h
      · exact hq
  · rw [if_neg hq]
    by_cases ht : t = tile
    · subst ht
      simp
    · simp [ht]

/-- Helper: `EnqueueTileForRasterization` leaves every bin unchanged. -/
theorem enqueue_bins (s : BinningState) (tile : ℕ) :
    (enqueueTileForRasterization s tile).bins = s.bins := by
  unfold enqueueTileForRasterization
  split_ifs <;> rfl

/-- Helper: `EnqueueTileForRasterization` preserves the binning invariant. -/
theorem enqueue_invariant (s : BinningState) (tile : ℕ) (h : binningInvariant s) :
    binningInvariant (enqueueTileForRasterization s tile) := by
  obtain ⟨hcount, hbins⟩ := h
  unfold enqueueTileForRasterization
  by_cases hq : s.isTileQueued tile = true
  · rw [if_pos hq]
    exact ⟨hcount, hbins⟩
  · rw [if_neg hq]
    constructor
    · intro t
      by_cases ht : t = tile
      · subst ht
        simp [List.count_append, List.count_singleton', hcount t, hq]
      · simp [List.count_append, List.count_singleton', Ne.symm ht, ht, hcount t]
    · intro t w hne
      by_cases ht : t = tile
      · simp [ht]
      · simpa [ht] using hbins t w hne

/-- Helper: after the conditional first-push enqueue of `BinPrimitiveForTile`,
the tile's flag is always set (either the enqueue set it, or the bin was
already nonempty and the invariant says it was set before). -/
theorem binPrim_conditional_flag (s : BinningState) (w tile : ℕ)
    (hbins : ∀ t2 w2, s.bins t2 w2 ≠ [] → s.isTileQueued t2 = true) :
    (if (s.bins tile w).isEmpty then enqueueTileForRasterization s tile
        else s).isTileQueued tile = true := by
  split_ifs with hempty
  · exact (enqueue_isTileQueued s tile tile).mpr (Or.inr rfl)
  · exact hbins tile w (by simpa using hempty)

/-- Helper: the queued flag after one binner event, assuming the invariant. -/
theorem applyEvent_isTileQueued (s : BinningState) (e : BinnerEvent) (t : ℕ)
    (h : binningInvariant s) :
    (applyBinnerEvent s e).isTileQueued t = true ↔
      s.isTileQueued t = true ∨ eventTouchesTile t e := by
  cases e with
  | trivialAccept t2 =>
    exact (enqueue_isTileQueued s t2 t).trans (or_congr Iff.rfl eq_comm)
  | binPrim w2 t2 p =>
    show (binPrimitiveForTile s w2 t2 p).isTileQueued t = true ↔ _
    simp only [binPrimitiveForTile]
    by_cases hempty : (s.bins t2 w2).isEmpty = true
    · rw [if_pos hempty]
      exact (enqueue_isTileQueued s t2 t).trans (or_congr Iff.rfl eq_comm)
    · rw [if_neg hempty]
      constructor
      · exact Or.inl
      · rintro (hf | rfl)
        · exact hf
        · exact h.2 t2 w2 (by simpa using hempty)

/-- Helper: one binner event preserves the binning invariant. -/
theorem applyEvent_invariant (s : BinningState) (e : BinnerEvent)
    (h : binningInvariant s) : binningInvariant (applyBinnerEvent s e) := by
  cases e with
  | trivialAccept t2 => exact enqueue_invariant s t2 h
  | binPrim w2 t2 p =>
    show binningInvariant (binPrimitiveForTile s w2 t2 p)
    have hs1 : binningInvariant
        (if (s.bins t2 w2).isEmpty then enqueueTileForRasterization s t2 else s) := by
      split_ifs
      · exact enqueue_invariant s t2 h
      · exact h
    obtain ⟨hcount1, hbins1⟩ := hs1
    simp only [binPrimitiveForTile]
    refine ⟨fun t => hcount1 t, fun t w3 hne => ?_⟩
    by_cases hc : t = t2 ∧ w3 = w2
    · obtain ⟨rfl, rfl⟩ := hc
      exact binPrim_conditional_flag s w3 t h.2
    · dsimp only at hne ⊢
      rw [if_neg hc] at hne
      exact hbins1 t w3 hne

/-- Helper: running a list of binner events from an invariant state preserves
the invariant, and a tile's flag ends set iff it started set or some event
touched the tile. -/
theorem runBinner_aux (es : List BinnerEvent) :
    ∀ s : BinningState, binningInvariant s →
      binningInvariant (es.foldl applyBinnerEvent s) ∧
        ∀ t, (es.foldl applyBinnerEvent s).isTileQueued t = true ↔
          (s.isTileQueued t = true ∨ ∃ e ∈ es, eventTouchesTile t e) := by
  induction es with
  | nil =>
    intro s hs
    refine ⟨hs, fun t => ?_⟩
    simp
  | cons e es ih =>
    intro s hs
    obtain ⟨hinv, hq⟩ := ih (applyBinnerEvent s e) (applyEvent_invariant s e hs)
    refine ⟨?_, fun t => ?_⟩
    · rw [List.foldl_cons]
      exact hinv
    · rw [List.foldl_cons, hq t, applyEvent_isTileQueued s e t hs]
      simp only [List.mem_cons]
      constructor
      · rintro ((h | h) | ⟨e2, he2, ht⟩)
        · exact Or.inl h
        · exact Or.inr ⟨e, Or.inl rfl, h⟩
        · exact Or.inr ⟨e2, Or.inr he2, ht⟩
      · rintro (h | ⟨e2, he2 | he2, ht⟩)
        · exact Or.inl (Or.inl h)
        · subst he2
          exact Or.inl (Or.inr ht)
        · exact Or.inr ⟨e2, he2, ht⟩

/-- Claim C4: over any linearization of a draw iteration, a tile ends up in
the rasterizer queue iff some worker trivially accepted it or pushed at least
one primitive into one of its bins, and it is inserted at most once — the
per-tile test-and-set flag lets only the first enqueuer perform the insert. -/
theorem tile_enqueued_iff_touched_once (es : List BinnerEvent) (t : ℕ) :
    (t ∈ (runBinnerEvents es).queue ↔ ∃ e ∈ es, eventTouchesTile t e) ∧
      (runBinnerEvents es).queue.count t ≤ 1 := by
  have hinit : binningInvariant initialBinningState := by
    refine ⟨fun t2 => ?_, fun t2 w2 hne => ?_⟩
    · simp [initialBinningState]
    · simp [initialBinningState] at hne
  obtain ⟨⟨hcount, _⟩, hq⟩ := runBinner_aux es initialBinningState hinit
  simp only [runBinnerEvents]
  have hflag : (es.foldl applyBinnerEvent initialBinningState).isTileQueued t = true ↔
      ∃ e ∈ es, eventTouchesTile t e := by
    rw [hq t]
    simp [initialBinningState]
  constructor
  · rw [← hflag]
    constructor
    · intro hmem
      by_cases hf : (es.foldl applyBinnerEvent initialBinningState).isTileQueued t = true
      · exact hf
      · exfalso
        have hc := hcount t
        rw [if_neg hf] at hc
        have := List.count_pos_iff.mpr hmem
        omega
    · intro hf
      have hc := hcount t
      rw [if_pos hf] at hc
      exact List.count_pos_iff.mp (by omega)
  · have hc := hcount t
    split_ifs at hc <;> omega

/-- Helper: rounding to nearest even never goes below the floor. -/
theorem roundNearestEven_nonneg (q : ℚ) (h : 0 ≤ q) : 0 ≤ roundNearestEven q := by
  have hf : (0 : ℤ) ≤ ⌊q⌋ := Int.floor_nonneg.mpr h
  unfold roundNearestEven
  split_ifs <;> omega

/-- Helper: rounding to nearest even stays at most 255 for inputs at most 255. -/
theorem roundNearestEven_le_of_le (q : ℚ) (h : q ≤ 255) : roundNearestEven q ≤ 255 := by
  have hfr : (⌊q⌋ : ℚ) ≤ q := Int.floor_le q
  have hf255 : ⌊q⌋ ≤ 255 := by
    have hc : (⌊q⌋ : ℚ) ≤ 255 := le_trans hfr h
    exact_mod_cast hc
  unfold roundNearestEven
  split_ifs with h1 h2 h3
  · exact hf255
  · have hlt : (⌊q⌋ : ℚ) < 255 := by linarith
    have hlt2 : ⌊q⌋ < 255 := by exact_mod_cast hlt
    omega
  · exact hf255
  · have hhalf : 1 / 2 ≤ q - ⌊q⌋ := le_of_not_lt h1
    have hlt : (⌊q⌋ : ℚ) < 255 := by linarith
    have hlt2 : ⌊q⌋ < 255 := by exact_mod_cast hlt
    omega

/-- Claim C3 amended: each stored 8-bit channel value equals the conversion of
`v * 255` by rounding to nearest with ties to even — not truncation — with no
clamping before the conversion (the pack steps saturate only after it, and are
the identity for shader outputs in [0, 1]). -/
theorem color_conversion_rounds_to_nearest_even (v : ℚ) (h0 : 0 ≤ v) (h1 : v ≤ 1) :
    storedColorByte v = roundNearestEven (v * 255) := by
  have hq0 : (0 : ℚ) ≤ v * 255 := by nlinarith
  have hq1 : v * 255 ≤ 255 := by nlinarith
  have hr0 : 0 ≤ roundNearestEven (v * 255) := roundNearestEven_nonneg _ hq0
  have hr1 : roundNearestEven (v * 255) ≤ 255 := roundNearestEven_le_of_le _ hq1
  unfold storedColorByte packusEpi32 asInt16 packusEpi16
  rw [min_eq_right (by omega), max_eq_right (by omega), if_pos (by omega),
    min_eq_right (by omega), max_eq_right (by omega)]

/-- Witness for the amended claim C3 at v = 1/2. -/
theorem color_conversion_rounds_to_nearest_even_witness :
    0 ≤ (1 / 2 : ℚ) ∧ (1 / 2 : ℚ) ≤ 1 ∧
      storedColorByte (1 / 2) = roundNearestEven (1 / 2 * 255) :=
  ⟨by norm_num, by norm_num,
    color_conversion_rounds_to_nearest_even (1 / 2) (by norm_num) (by norm_num)⟩

end Tyler
